import Mathlib

/-!
Verification of the OpenMW SceneUtil light manager
(`components/sceneutil/lightmanager.cpp`) against its specification.

Conventions of the shallow embedding:

* GPU float words are modelled as rational numbers (`ℚ`); a packed 32-bit
  word (a packed colour or a sign marker) is stored as the rational image
  of its unsigned integer value.  The buffer `mData` of a `LightBuffer` is
  a total function `ℕ → ℚ` from float-slot indices to stored words; C++
  out-of-bounds accesses are undefined behaviour and are excluded by
  explicit hypotheses where relevant.
* osg vector and matrix helpers (`osg::Vec4`, bounding-sphere transforms,
  frustum culling sets) are external collaborators of the excerpt; a light
  entering the view-space pipeline is therefore represented by its
  resolved view-space data (centre distance, bound radius, cull flag).
* `std::sort` leaves the permutation of tied elements unspecified; the
  embedding uses the stable `List.insertionSort`, one conforming
  refinement, and the theorems only use properties shared by every
  conforming implementation.
-/

/-- Rational clamp, mirroring `std::clamp(x, lo, hi)` for `lo ≤ hi`. -/
def qclamp (x lo hi : ℚ) : ℚ := min hi (max lo x)

/-- Four-component vector of rationals, standing in for `osg::Vec4f`. -/
structure Vec4 where
  x : ℚ
  y : ℚ
  z : ℚ
  w : ℚ
  deriving DecidableEq, Repr

/-- Componentwise scaling, standing in for `osg::Vec4::operator*=(float)`. -/
def Vec4.scale (v : Vec4) (k : ℚ) : Vec4 := ⟨v.x * k, v.y * k, v.z * k, v.w * k⟩

/-- Modelled from the spec: `osg` packs one colour channel into an unsigned
byte by clamping to [0,1] and scaling by 255 (the channel packing used by
`osg::Vec4::asRGBA`, an external collaborator whose source is not part of
the excerpt).  The truncating float-to-unsigned conversion is a floor here
because the clamped value is nonnegative. -/
def packUnormByte (v : ℚ) : ℕ := (qclamp v 0 1 * 255).num.toNat / (qclamp v 0 1 * 255).den

/-- Modelled from the spec: `osg::Vec4::asRGBA`, the external packing of a
colour into one 32-bit word, bytes in channel order.  `LightBuffer.asRGBA`
flips to `asABGR` on big-endian hosts; the embedding fixes one byte order,
which the claims do not distinguish. -/
def Vec4.asRGBA (v : Vec4) : ℕ :=
  packUnormByte v.x * 2 ^ 24 + packUnormByte v.y * 2 ^ 16 + packUnormByte v.z * 2 ^ 8 + packUnormByte v.w

/-- Field slots of one light record, from `LightBuffer::LayoutOffset`. -/
inductive LayoutOffset
  | Diffuse
  | DiffuseSign
  | Ambient
  | Specular
  | Position
  | AttenuationRadius
  deriving DecidableEq, Repr

/-- Layout descriptor of the packed buffer: per-field float-slot offsets
plus a per-record float stride, from `LightBuffer::Offsets`. -/
structure Offsets where
  mStride : ℕ
  mValues : LayoutOffset → ℕ

/-- Default layout (`Offsets::Offsets()`): stride 12 floats, colours in
slots 0-3, position at 4, attenuation at 8. -/
def defaultOffsets : Offsets where
  mStride := 12
  mValues := fun s => match s with
    | .Diffuse => 0
    | .Ambient => 1
    | .Specular => 2
    | .DiffuseSign => 3
    | .Position => 4
    | .AttenuationRadius => 8

/-- Driver-negotiated layout (`Offsets::Offsets(int,int,int,int)`): byte
offsets and stride from uniform-block introspection, divided by
`sizeof(GLfloat) = 4` to obtain float-slot indices; the stride is
`(offsetAttenuationRadius + sizeof(GLfloat)*4 + stride) / 4`. -/
def configuredOffsets (offsetColors offsetPosition offsetAttenuationRadius stride : ℕ) : Offsets where
  mStride := (offsetAttenuationRadius + 4 * 4 + stride) / 4
  mValues := fun s => match s with
    | .Diffuse => offsetColors / 4
    | .Ambient => offsetColors / 4 + 1
    | .Specular => offsetColors / 4 + 2
    | .DiffuseSign => offsetColors / 4 + 3
    | .Position => offsetPosition / 4
    | .AttenuationRadius => offsetAttenuationRadius / 4

/-- `Offsets::get(index, slot) = mStride * index + mValues[slot]`. -/
def Offsets.get (o : Offsets) (index : ℕ) (slot : LayoutOffset) : ℕ :=
  o.mStride * index + o.mValues slot

/-- The packed GPU light buffer (`SceneUtil::LightBuffer`): the float
array `mData`, the configured capacity `mCount`, the active layout
descriptor and the cached sun position. -/
structure LightBuffer where
  mData : ℕ → ℚ
  mCount : ℕ
  mOffsets : Offsets
  mCachedSunPos : Vec4

/-- `LightBuffer::LightBuffer(count)`: zeroed data, default layout. -/
def LightBuffer.init (count : ℕ) : LightBuffer :=
  ⟨fun _ => 0, count, defaultOffsets, ⟨0, 0, 0, 0⟩⟩

/-- `LightBuffer::getOffset`. -/
def LightBuffer.getOffset (b : LightBuffer) (index : ℕ) (slot : LayoutOffset) : ℕ :=
  b.mOffsets.get index slot

/-- Store one 32-bit word (one float slot), as done by the
`memcpy(..., sizeof(unsigned int))` calls. -/
def writeWord (d : ℕ → ℚ) (p : ℕ) (v : ℚ) : ℕ → ℚ :=
  fun q => if q = p then v else d q

/-- Store four consecutive 32-bit words, as done by the
`memcpy(..., sizeof(osg::Vec4f))` calls. -/
def writeVec4 (d : ℕ → ℚ) (p : ℕ) (v : Vec4) : ℕ → ℚ :=
  fun q =>
    if q = p then v.x
    else if q = p + 1 then v.y
    else if q = p + 2 then v.z
    else if q = p + 3 then v.w
    else d q

/-- `LightBuffer::setDiffuse`: a sign bit for negative lights is passed in
the reserved `DiffuseSign` slot.  The source tests only `value[0] < 0`;
when it holds the colour is multiplied by `-1.0` before packing and the
marker is `~0u = 4294967295`, otherwise the marker is `1`. -/
def LightBuffer.setDiffuse (b : LightBuffer) (index : ℕ) (value : Vec4) : LightBuffer :=
  let positiveColor := if value.x < 0 then value.scale (-1) else value
  let signBit : ℕ := if value.x < 0 then 4294967295 else 1
  { b with
    mData :=
      writeWord
        (writeWord b.mData (b.getOffset index .Diffuse) (positiveColor.asRGBA : ℚ))
        (b.getOffset index .DiffuseSign) (signBit : ℚ) }

/-- `LightBuffer::setAmbient`. -/
def LightBuffer.setAmbient (b : LightBuffer) (index : ℕ) (value : Vec4) : LightBuffer :=
  { b with mData := writeWord b.mData (b.getOffset index .Ambient) (value.asRGBA : ℚ) }

/-- `LightBuffer::setSpecular`. -/
def LightBuffer.setSpecular (b : LightBuffer) (index : ℕ) (value : Vec4) : LightBuffer :=
  { b with mData := writeWord b.mData (b.getOffset index .Specular) (value.asRGBA : ℚ) }

/-- `LightBuffer::setPosition`. -/
def LightBuffer.setPosition (b : LightBuffer) (index : ℕ) (value : Vec4) : LightBuffer :=
  { b with mData := writeVec4 b.mData (b.getOffset index .Position) value }

/-- `LightBuffer::setAttenuationRadius`. -/
def LightBuffer.setAttenuationRadius (b : LightBuffer) (index : ℕ) (value : Vec4) : LightBuffer :=
  { b with mData := writeVec4 b.mData (b.getOffset index .AttenuationRadius) value }

/-- `LightBuffer::queryBlockSize(sz) = 3 * 4 * sizeof(GLfloat) * sz`. -/
def LightBuffer.queryBlockSize (sz : ℕ) : ℕ := 3 * 4 * 4 * sz

/-- `LightManager::getMaxLightsInScene() = 16384 / queryBlockSize(1)`. -/
def getMaxLightsInScene : ℕ := 16384 / LightBuffer.queryBlockSize 1

/-- `osg::FloatArray::resizeArray(size)`: keeps the words below `size`,
anything beyond reads as zero. -/
def resizeTo (size : ℕ) (d : ℕ → ℚ) : ℕ → ℚ :=
  fun p => if p < size then d p else 0

/-- One `memcpy` of `configureLayout`: copy the four words of a quad from
the snapshot at its source offset to the destination offset. -/
def copyQuad (snapshot : ℕ → ℚ) (srcOff dstOff : ℕ) (d : ℕ → ℚ) : ℕ → ℚ :=
  fun p => if dstOff ≤ p ∧ p < dstOff + 4 then snapshot (srcOff + (p - dstOff)) else d p

/-- The loop body of `configureLayout` for record `i`: copy the Diffuse,
Position and AttenuationRadius quads (in source order, later copies on
top) from the old layout offsets to the new ones. -/
def copyRecord (snapshot : ℕ → ℚ) (oldO newO : Offsets) (i : ℕ) (d : ℕ → ℚ) : ℕ → ℚ :=
  copyQuad snapshot (oldO.get i .AttenuationRadius) (newO.get i .AttenuationRadius)
    (copyQuad snapshot (oldO.get i .Position) (newO.get i .Position)
      (copyQuad snapshot (oldO.get i .Diffuse) (newO.get i .Diffuse) d))

/-- The `for (int i = 0; i < mCount; ++i)` loop of `configureLayout`:
records are processed in ascending order, so record `n` is copied last. -/
def copyRecords (snapshot : ℕ → ℚ) (oldO newO : Offsets) : ℕ → (ℕ → ℚ) → (ℕ → ℚ)
  | 0, d => d
  | n + 1, d => copyRecord snapshot oldO newO n (copyRecords snapshot oldO newO n d)

/-- `LightBuffer::configureLayout`: build the new `Offsets`, snapshot the
current data (`mData->asVector()`), resize the array, copy every record's
three quads from the snapshot (read at the old offsets) to the new
offsets, then adopt the new layout. -/
def LightBuffer.configureLayout (b : LightBuffer)
    (offsetColors offsetPosition offsetAttenuationRadius size stride : ℕ) : LightBuffer :=
  let offsets := configuredOffsets offsetColors offsetPosition offsetAttenuationRadius stride
  { b with
    mData := copyRecords b.mData b.mOffsets offsets b.mCount (resizeTo size b.mData)
    mOffsets := offsets }

/-- The three quads that `configureLayout` copies per record. -/
def quadSlots : List LayoutOffset := [.Diffuse, .Position, .AttenuationRadius]

/-- The four-word ranges of quad `(i, s)` and quad `(j, t)` do not meet. -/
def quadFree (o : Offsets) (i : ℕ) (s : LayoutOffset) (j : ℕ) (t : LayoutOffset) : Prop :=
  ∀ a, a < 4 → ∀ b, b < 4 → o.get i s + a ≠ o.get j t + b

instance (o : Offsets) (i : ℕ) (s : LayoutOffset) (j : ℕ) (t : LayoutOffset) :
    Decidable (quadFree o i s j t) := by
  unfold quadFree
  infer_instance

/-- All distinct copied quads of records `i` and `j` are disjoint. -/
def quadPairFree (o : Offsets) (i j : ℕ) : Prop :=
  ∀ s ∈ quadSlots, ∀ t ∈ quadSlots, (i ≠ j ∨ s ≠ t) → quadFree o i s j t

instance (o : Offsets) (i j : ℕ) : Decidable (quadPairFree o i j) := by
  unfold quadPairFree
  infer_instance

/-- Well-formedness of a record layout for `count` records: the copied
quads occupy pairwise disjoint word ranges.  Every layout produced by a
real driver introspection satisfies this. -/
def quadsDisjoint (o : Offsets) (count : ℕ) : Prop :=
  ∀ i, i < count → ∀ j, j < count → quadPairFree o i j

instance (o : Offsets) (count : ℕ) : Decidable (quadsDisjoint o count) := by
  unfold quadsDisjoint
  infer_instance

/-- A word position inside the destination quad is served from the
snapshot at the matching source position. -/
theorem copyQuad_hit (snapshot : ℕ → ℚ) (srcOff dstOff : ℕ) (d : ℕ → ℚ) (a : ℕ) (ha : a < 4) :
    copyQuad snapshot srcOff dstOff d (dstOff + a) = snapshot (srcOff + a) := by
  unfold copyQuad
  have h1 : dstOff ≤ dstOff + a := Nat.le_add_right _ _
  have h2 : dstOff + a < dstOff + 4 := Nat.add_lt_add_left ha _
  simp [h1, h2]

/-- A word position outside the destination quad is passed through. -/
theorem copyQuad_miss (snapshot : ℕ → ℚ) (srcOff dstOff : ℕ) (d : ℕ → ℚ) (p : ℕ)
    (hp : ∀ a, a < 4 → p ≠ dstOff + a) :
    copyQuad snapshot srcOff dstOff d p = d p := by
  unfold copyQuad
  have : ¬(dstOff ≤ p ∧ p < dstOff + 4) := by
    rintro ⟨hle, hlt⟩
    exact hp (p - dstOff) (by omega) (by omega)
  simp [this]

/-- Evaluating the copy loop at a destination quad position: provided the
destination quads are pairwise disjoint, the word at offset `a` of the
destination quad of record `i`, slot `s`, is the snapshot word at offset
`a` of the corresponding source quad. -/
theorem copyRecords_eval (snapshot : ℕ → ℚ) (oldO newO : Offsets) (count : ℕ) (d : ℕ → ℚ)
    (hdisj : quadsDisjoint newO count)
    (i : ℕ) (hi : i < count) (s : LayoutOffset) (hs : s ∈ quadSlots) (a : ℕ) (ha : a < 4) :
    copyRecords snapshot oldO newO count d (newO.get i s + a) = snapshot (oldO.get i s + a) := by
  induction count with
  | zero => omega
  | succ n ih =>
    rw [copyRecords]
    by_cases hin : i = n
    · subst hin
      unfold copyRecord
      simp only [quadSlots, List.mem_cons, List.not_mem_nil, or_false] at hs
      rcases hs with hs | hs | hs
      · -- s = Diffuse: the two outer quads (AttenuationRadius, Position) miss
        subst hs
        rw [copyQuad_miss]
        · rw [copyQuad_miss]
          · exact copyQuad_hit _ _ _ _ a ha
          · exact fun b hb => hdisj i (by omega) i (by omega) .Diffuse (by simp [quadSlots])
              .Position (by simp [quadSlots]) (Or.inr (by simp)) a ha b hb
        · exact fun b hb => hdisj i (by omega) i (by omega) .Diffuse (by simp [quadSlots])
            .AttenuationRadius (by simp [quadSlots]) (Or.inr (by simp)) a ha b hb
      · -- s = Position: outer AttenuationRadius quad misses, middle hits
        subst hs
        rw [copyQuad_miss]
        · exact copyQuad_hit _ _ _ _ a ha
        · exact fun b hb => hdisj i (by omega) i (by omega) .Position (by simp [quadSlots])
            .AttenuationRadius (by simp [quadSlots]) (Or.inr (by simp)) a ha b hb
      · -- s = AttenuationRadius: the outermost quad hits directly
        subst hs
        exact copyQuad_hit _ _ _ _ a ha
    · -- i < n: record n's three quads all miss this position
      have hi2 : i < n := by omega
      have hmiss : ∀ t, t ∈ quadSlots → ∀ b, b < 4 →
          newO.get i s + a ≠ newO.get n t + b := by
        intro t ht b hb
        exact hdisj i (by omega) n (by omega) s hs t ht (Or.inl hin) a ha b hb
      unfold copyRecord
      rw [copyQuad_miss, copyQuad_miss, copyQuad_miss]
      · exact ih (fun x hx y hy => hdisj x (by omega) y (by omega)) hi2
      · exact fun b hb => hmiss .Diffuse (by simp [quadSlots]) b hb
      · exact fun b hb => hmiss .Position (by simp [quadSlots]) b hb
      · exact fun b hb => hmiss .AttenuationRadius (by simp [quadSlots]) b hb

/-- C1: `configureLayout` with fresh field offsets and stride preserves
every previously packed record: for each record `i` below the configured
capacity, each of the three packed quadwords (diffuse, position,
attenuation) read back under the new layout equals, word for word, the
bytes stored under the old layout.  The hypotheses state the
well-formedness of the driver-reported layout (the destination quads are
pairwise disjoint and lie inside the new block size), which excludes the
C++ undefined behaviour of overlapping or out-of-range `memcpy`. -/
theorem configureLayout_preserves_packed_records (b : LightBuffer)
    (offsetColors offsetPosition offsetAttenuationRadius size stride : ℕ)
    (hdisj : quadsDisjoint (configuredOffsets offsetColors offsetPosition offsetAttenuationRadius stride) b.mCount)
    (hsize : ∀ i, i < b.mCount → ∀ s ∈ quadSlots,
      (configuredOffsets offsetColors offsetPosition offsetAttenuationRadius stride).get i s + 4 ≤ size)
    (i : ℕ) (hi : i < b.mCount) (s : LayoutOffset) (hs : s ∈ quadSlots) (a : ℕ) (ha : a < 4) :
    (b.configureLayout offsetColors offsetPosition offsetAttenuationRadius size stride).mData
      ((b.configureLayout offsetColors offsetPosition offsetAttenuationRadius size stride).getOffset i s + a)
    = b.mData (b.getOffset i s + a) := by
  show copyRecords b.mData b.mOffsets _ b.mCount (resizeTo size b.mData) _ = _
  exact copyRecords_eval b.mData b.mOffsets _ b.mCount _ hdisj i hi s hs a ha

/-- Witness for C1 at a concrete buffer: one record holding the word
pattern `p ↦ p + 7`, relaid out from the default layout to a
driver-reported layout with colours at byte 16, position at byte 0 and
attenuation at byte 32. -/
theorem configureLayout_preserves_packed_records_witness :
    quadsDisjoint (configuredOffsets 16 0 32 0) 1 ∧
    ({ mData := fun p => (p : ℚ) + 7, mCount := 1, mOffsets := defaultOffsets,
       mCachedSunPos := ⟨0, 0, 0, 0⟩ : LightBuffer}.configureLayout 16 0 32 48 0).mData
      (((configuredOffsets 16 0 32 0).get 0 .Diffuse) + 1)
      = ({ mData := fun p => (p : ℚ) + 7, mCount := 1, mOffsets := defaultOffsets,
           mCachedSunPos := ⟨0, 0, 0, 0⟩ : LightBuffer}.mData (defaultOffsets.get 0 .Diffuse + 1)) := by
  constructor
  · decide
  · exact configureLayout_preserves_packed_records _ 16 0 32 48 0 (by decide) (by decide)
      0 (by decide) .Diffuse (by decide) 1 (by decide)

/-- C4 (amended): `setDiffuse` packs the colour as 4 unsigned bytes and
encodes sign through the reserved marker slot, keying on the FIRST (red)
component only: when `value[0] < 0` the colour is multiplied by `-1`
before packing and the distinct marker `~0u` is written, otherwise the
colour is packed as-is and the default marker `1` is written; hence the
marker differs from `1` exactly when the red component is negative.  The
hypothesis states that the two slots are distinct, true of every layout
the source constructs. -/
theorem setDiffuse_sign_marker (b : LightBuffer) (index : ℕ) (value : Vec4)
    (hslots : b.getOffset index .Diffuse ≠ b.getOffset index .DiffuseSign) :
    ((b.setDiffuse index value).mData (b.getOffset index .DiffuseSign)
        = if value.x < 0 then ((4294967295 : ℕ) : ℚ) else 1) ∧
    ((b.setDiffuse index value).mData (b.getOffset index .Diffuse)
        = (((if value.x < 0 then value.scale (-1) else value).asRGBA : ℕ) : ℚ)) ∧
    ((b.setDiffuse index value).mData (b.getOffset index .DiffuseSign) ≠ 1 ↔ value.x < 0) := by
  by_cases h : value.x < 0 <;>
    simp [LightBuffer.setDiffuse, writeWord, h, hslots, Ne.symm hslots]

/-- Witness for C4 (amended) at a negative-red colour on a fresh buffer. -/
theorem setDiffuse_sign_marker_witness :
    (LightBuffer.init 1).getOffset 0 .Diffuse ≠ (LightBuffer.init 1).getOffset 0 .DiffuseSign ∧
    (((LightBuffer.init 1).setDiffuse 0 ⟨-1, 0, 0, 0⟩).mData
        ((LightBuffer.init 1).getOffset 0 .DiffuseSign) ≠ 1 ↔ (⟨-1, 0, 0, 0⟩ : Vec4).x < 0) :=
  ⟨by decide, (setDiffuse_sign_marker (LightBuffer.init 1) 0 ⟨-1, 0, 0, 0⟩ (by decide)).2.2⟩

/-- C4 counterexample: the colour `(0, -1, 0, 0)` has a negative (green)
component, yet `setDiffuse` writes the DEFAULT marker `1` and packs the
colour without negation — the source tests only the red component, not
"any component" as claimed. -/
theorem setDiffuse_any_component_counterexample :
    ((⟨0, -1, 0, 0⟩ : Vec4).y < 0) ∧
    ((LightBuffer.init 1).setDiffuse 0 ⟨0, -1, 0, 0⟩).mData
        ((LightBuffer.init 1).getOffset 0 .DiffuseSign) = 1 ∧
    ((LightBuffer.init 1).setDiffuse 0 ⟨0, -1, 0, 0⟩).mData
        ((LightBuffer.init 1).getOffset 0 .Diffuse)
      = ((Vec4.asRGBA ⟨0, -1, 0, 0⟩ : ℕ) : ℚ) ∧
    ((Vec4.asRGBA (Vec4.scale ⟨0, -1, 0, 0⟩ (-1)) : ℕ) : ℚ)
      ≠ ((Vec4.asRGBA ⟨0, -1, 0, 0⟩ : ℕ) : ℚ) := by
  refine ⟨by norm_num, ?_, ?_, by norm_num [Vec4.asRGBA, Vec4.scale, packUnormByte, qclamp]⟩ <;>
    simp [LightBuffer.setDiffuse, LightBuffer.init, LightBuffer.getOffset, writeWord,
      defaultOffsets, Offsets.get]

/-- The three lighting tiers (`SceneUtil::LightingMethod`). -/
inductive LightingMethod
  | FFP
  | PerObjectUniform
  | SingleUBO
  deriving DecidableEq, Repr

/-- `LightManager::mLightingMethodSettingMap`. -/
def mLightingMethodSettingMap : List (String × LightingMethod) :=
  [("legacy", .FFP), ("shaders compatibility", .PerObjectUniform), ("shaders", .SingleUBO)]

/-- `LightManager::getLightingMethodFromString`: look the string up in the
setting map; on a miss log a warning (the `Bool` component of the result)
and return the `PerObjectUniform` ("shaders compatibility") fallback. -/
def getLightingMethodFromString (value : String) : LightingMethod × Bool :=
  match mLightingMethodSettingMap.find? (fun p => p.1 == value) with
  | some p => (p.2, false)
  | none => (.PerObjectUniform, true)

/-- C8: `getLightingMethodFromString` is total and never fails: each of the
three recognized names maps to its tier without a warning, and every other
string maps to the documented `PerObjectUniform` fallback with a logged
warning. -/
theorem getLightingMethodFromString_total (value : String) :
    (value = "legacy" → getLightingMethodFromString value = (.FFP, false)) ∧
    (value = "shaders compatibility" →
      getLightingMethodFromString value = (.PerObjectUniform, false)) ∧
    (value = "shaders" → getLightingMethodFromString value = (.SingleUBO, false)) ∧
    (value ≠ "legacy" → value ≠ "shaders compatibility" → value ≠ "shaders" →
      getLightingMethodFromString value = (.PerObjectUniform, true)) := by
  refine ⟨?_, ?_, ?_, ?_⟩
  · rintro rfl; rfl
  · rintro rfl; rfl
  · rintro rfl; rfl
  · intro h1 h2 h3
    have e1 : ("legacy" == value) = false := beq_eq_false_iff_ne.mpr (Ne.symm h1)
    have e2 : ("shaders compatibility" == value) = false := beq_eq_false_iff_ne.mpr (Ne.symm h2)
    have e3 : ("shaders" == value) = false := beq_eq_false_iff_ne.mpr (Ne.symm h3)
    simp [getLightingMethodFromString, mLightingMethodSettingMap, List.find?, e1, e2, e3]

/-- Witness for C8 on a recognized and on an unrecognized string. -/
theorem getLightingMethodFromString_total_witness :
    getLightingMethodFromString "legacy" = (.FFP, false) ∧
    getLightingMethodFromString "morrowind" = (.PerObjectUniform, true) :=
  ⟨(getLightingMethodFromString_total "legacy").1 rfl,
   (getLightingMethodFromString_total "morrowind").2.2.2
     (by decide) (by decide) (by decide)⟩

/-- Point-light settings of the manager relevant to fading and bounds. -/
structure PointLightSettings where
  mPointLightRadiusMultiplier : ℚ
  mPointLightFadeEnd : ℚ
  mPointLightFadeStart : ℚ
  deriving DecidableEq, Repr

/-- `LightManager::updateSettings` (non-FFP path): the radius multiplier is
clamped to [0, 5] and the fade end to at least 0; when the fade end is
positive the fade start becomes the fade end times the fraction clamped to
[0, 1], otherwise it keeps its previous value. -/
def updateSettings (prev : PointLightSettings)
    (rawMultiplier rawFadeEnd rawFadeStart : ℚ) : PointLightSettings :=
  let mult := qclamp rawMultiplier 0 5
  let fadeEnd := max 0 rawFadeEnd
  let fadeStart :=
    if fadeEnd > 0 then fadeEnd * qclamp rawFadeStart 0 1 else prev.mPointLightFadeStart
  ⟨mult, fadeEnd, fadeStart⟩

/-- One registered light as seen by the per-camera view-space pass: the
identity, the resolved view-space bound (centre distance and bound radius;
the osg matrix and bounding-sphere arithmetic is external), the light
parameters of the active frame copy, and the frustum-cull verdict of the
camera on its doubled bound (`osg::CullingSet::isCulled`, external). -/
structure LightRec where
  mId : ℕ
  viewDist : ℚ
  viewRadius : ℚ
  diffuse : Vec4
  ambient : Vec4
  attenC : ℚ
  attenL : ℚ
  attenQ : ℚ
  radius : ℚ
  viewPos : Vec4
  culled : Bool
  deriving DecidableEq, Repr

/-- Loop body of `getLightsInViewSpace` for one registered light: fading is
skipped for the reflection camera or a zero fade end; otherwise
`fade = 1 - clamp((dist - fadeStart) / (fadeEnd - fadeStart), 0, 1)`, a
fully faded light is dropped (`continue`), and a surviving light has its
frame-indexed diffuse colour scaled by the fade factor. -/
def fadeLight (s : PointLightSettings) (isReflection : Bool) (l : LightRec) : Option LightRec :=
  if isReflection = false ∧ s.mPointLightFadeEnd ≠ 0 then
    let fadeDelta := s.mPointLightFadeEnd - s.mPointLightFadeStart
    let fade := 1 - qclamp ((l.viewDist - s.mPointLightFadeStart) / fadeDelta) 0 1
    if fade = 0 then none
    else some { l with diffuse := l.diffuse.scale fade }
  else some l

/-- The collection loop of `getLightsInViewSpace` over the frame's
registered lights (run on the first query of a camera each frame). -/
def buildViewBounds (s : PointLightSettings) (isReflection : Bool)
    (mLights : List LightRec) : List LightRec :=
  mLights.filterMap (fadeLight s isReflection)

/-- C3: with fade-end 100 and fade-start fraction 0.5 accepted by
`updateSettings` (hence fade-start 50) and a non-reflection camera,
`getLightsInViewSpace` leaves a light at distance 50 unchanged
(fade = 1), scales a light at distance 75 by one half, and excludes a
light at distance 100 or more from the built list (fade = 0); the built
per-camera collection is exactly the per-light fade map over the
registered lights. -/
theorem getLightsInViewSpace_fade_50_75_100 (prev : PointLightSettings)
    (rawMultiplier : ℚ) (s : PointLightSettings)
    (hs : s = updateSettings prev rawMultiplier 100 (1 / 2)) :
    s.mPointLightFadeEnd = 100 ∧ s.mPointLightFadeStart = 50 ∧
    (∀ l : LightRec, l.viewDist = 50 → fadeLight s false l = some l) ∧
    (∀ l : LightRec, l.viewDist = 75 →
      fadeLight s false l = some { l with diffuse := l.diffuse.scale (1 / 2) }) ∧
    (∀ l : LightRec, 100 ≤ l.viewDist → fadeLight s false l = none) ∧
    (∀ lights : List LightRec,
      buildViewBounds s false lights = lights.filterMap (fadeLight s false)) := by
  have hE : s.mPointLightFadeEnd = 100 := by
    subst hs
    show max 0 100 = (100 : ℚ)
    norm_num
  have hS : s.mPointLightFadeStart = 50 := by
    subst hs
    show (if max (0 : ℚ) 100 > 0 then max (0 : ℚ) 100 * qclamp (1 / 2) 0 1
      else prev.mPointLightFadeStart) = 50
    norm_num [qclamp]
  obtain ⟨m, fE, fS⟩ := s
  dsimp only at hE hS
  subst hE
  subst hS
  refine ⟨rfl, rfl, ?_, ?_, ?_, fun _ => rfl⟩
  · intro l hl
    rw [fadeLight]
    dsimp only
    rw [if_pos (by norm_num : false = false ∧ (100 : ℚ) ≠ 0)]
    have hq : (1 : ℚ) - qclamp ((l.viewDist - 50) / (100 - 50)) 0 1 = 1 := by
      rw [hl]
      norm_num [qclamp, min_def, max_def]
    rw [hq, if_neg one_ne_zero]
    cases l
    simp [Vec4.scale]
  · intro l hl
    rw [fadeLight]
    dsimp only
    rw [if_pos (by norm_num : false = false ∧ (100 : ℚ) ≠ 0)]
    have hq : (1 : ℚ) - qclamp ((l.viewDist - 50) / (100 - 50)) 0 1 = 1 / 2 := by
      rw [hl]
      norm_num [qclamp, min_def, max_def]
    rw [hq, if_neg (by norm_num)]
  · intro l hl
    rw [fadeLight]
    dsimp only
    rw [if_pos (by norm_num : false = false ∧ (100 : ℚ) ≠ 0)]
    have hq : (1 : ℚ) - qclamp ((l.viewDist - 50) / (100 - 50)) 0 1 = 0 := by
      have h1 : (1 : ℚ) ≤ (l.viewDist - 50) / (100 - 50) := by
        rw [le_div_iff₀ (by norm_num)]
        linarith
      unfold qclamp
      rw [max_eq_right (by linarith), min_eq_left h1]
      ring
    rw [hq, if_pos rfl]

/-- Witness for C3: a concrete light at distance 120 is excluded. -/
theorem getLightsInViewSpace_fade_50_75_100_witness :
    fadeLight (updateSettings ⟨1, 0, 0⟩ 1 100 (1 / 2)) false
      ⟨0, 120, 5, ⟨1, 1, 1, 1⟩, ⟨0, 0, 0, 0⟩, 1, 0, 0, 5, ⟨0, 0, 0, 1⟩, false⟩ = none :=
  (getLightsInViewSpace_fade_50_75_100 ⟨1, 0, 0⟩ 1 _ rfl).2.2.2.2.1
    ⟨0, 120, 5, ⟨1, 1, 1, 1⟩, ⟨0, 0, 0, 0⟩, 1, 0, 0, 5, ⟨0, 0, 0, 1⟩, false⟩ (by norm_num)

/-- C10 counterexample: `updateSettings` accepts a fade-start fraction of
exactly 1 (the clamp range [0, 1] is inclusive); the configuration
fade-end 100, fraction 1 yields fade-start 100, so the fade divisor
`fadeEnd - fadeStart` computed by `getLightsInViewSpace` is zero while the
fade branch is taken (fade end nonzero). -/
theorem fade_divisor_zero_counterexample :
    (updateSettings ⟨1, 0, 0⟩ 1 100 1).mPointLightFadeEnd ≠ 0 ∧
    (updateSettings ⟨1, 0, 0⟩ 1 100 1).mPointLightFadeEnd
      - (updateSettings ⟨1, 0, 0⟩ 1 100 1).mPointLightFadeStart = 0 := by
  norm_num [updateSettings, qclamp]

/-- C10 (amended): for every configuration accepted by `updateSettings`
whose clamped fade-start fraction is strictly below 1, whenever the fade
branch of `getLightsInViewSpace` is reached (fade end nonzero), the fade
divisor `fadeEnd - fadeStart` is nonzero (indeed positive); at a fraction
of exactly 1 the divisor is zero. -/
theorem fade_divisor_nonzero (prev : PointLightSettings)
    (rawMultiplier rawFadeEnd rawFadeStart : ℚ)
    (hfrac : qclamp rawFadeStart 0 1 < 1)
    (hend : (updateSettings prev rawMultiplier rawFadeEnd rawFadeStart).mPointLightFadeEnd ≠ 0) :
    (updateSettings prev rawMultiplier rawFadeEnd rawFadeStart).mPointLightFadeEnd
      - (updateSettings prev rawMultiplier rawFadeEnd rawFadeStart).mPointLightFadeStart ≠ 0 := by
  have hpos : (0 : ℚ) < max 0 rawFadeEnd := by
    rcases lt_or_eq_of_le (le_max_left 0 rawFadeEnd) with h | h
    · exact h
    · exact absurd h.symm hend
  show max 0 rawFadeEnd - (if max (0 : ℚ) rawFadeEnd > 0
      then max 0 rawFadeEnd * qclamp rawFadeStart 0 1 else prev.mPointLightFadeStart) ≠ 0
  rw [if_pos hpos]
  nlinarith

/-- Witness for C10 (amended) at fade-end 100, fraction one half. -/
theorem fade_divisor_nonzero_witness :
    qclamp (1 / 2) 0 1 < 1 ∧
    (updateSettings ⟨1, 0, 0⟩ 1 100 (1 / 2)).mPointLightFadeEnd
      - (updateSettings ⟨1, 0, 0⟩ 1 100 (1 / 2)).mPointLightFadeStart ≠ 0 :=
  ⟨by norm_num [qclamp],
   fade_divisor_nonzero ⟨1, 0, 0⟩ 1 100 (1 / 2) (by norm_num [qclamp]) (by norm_num [updateSettings])⟩

/-- Proximity key of the in-scene capacity sorter of
`getLightsInViewSpace`: `center.length2() - radius2()`. -/
def ubRank (l : LightRec) : ℚ := l.viewDist ^ 2 - l.viewRadius ^ 2

/-- Nonstrict companion of the strict `std::sort` comparator
`ubRank left < ubRank right`; sorting by it refines `std::sort`. -/
def ubLe (a b : LightRec) : Prop := ubRank a ≤ ubRank b

instance : DecidableRel ubLe := fun a b => by
  unfold ubLe
  infer_instance

/-- Capacity pass of `getLightsInViewSpace` in the `SingleUBO` tier: when
the per-camera list exceeds `getMaxLightsInScene() - 1` entries, the tail
from `begin() + 1` on (slot 0 is reserved for the sun) is sorted by the
proximity heuristic and the range from `begin() + 1 + (maxLightsInScene - 2)`
to `end()` is erased. -/
def truncateForUBO (maxLightsInScene : ℕ) (l : List LightRec) : List LightRec :=
  if maxLightsInScene - 1 < l.length then
    match l with
    | [] => []
    | hd :: tl => hd :: List.take (maxLightsInScene - 2) (List.insertionSort ubLe tl)
  else l

/-- `LightManager::getLightsInViewSpace` for one camera on its first query
of the frame: build the per-camera list by the fade pass, then apply the
capacity pass when the manager runs the shared-buffer tier. -/
def getLightsInViewSpace (method : LightingMethod) (maxLightsInScene : ℕ)
    (s : PointLightSettings) (isReflection : Bool) (mLights : List LightRec) : List LightRec :=
  let collected := buildViewBounds s isReflection mLights
  if method = .SingleUBO then truncateForUBO maxLightsInScene collected else collected

/-- C2: in the shared-uniform-buffer tier, when the collected per-camera
list exceeds `maxLightsInScene - 1` entries, the returned list has exactly
`maxLightsInScene - 1` entries, its element at index 0 is the element that
was at index 0 before truncation, and the retained tail is a sub-multiset
of the original tail each of whose members ranks no higher, under the
ascending (distance² − radius²) ordering, than any dropped member. -/
theorem getLightsInViewSpace_capacity (maxLightsInScene : ℕ) (hmax : 2 ≤ maxLightsInScene)
    (s : PointLightSettings) (isReflection : Bool) (mLights collected : List LightRec)
    (hc : collected = buildViewBounds s isReflection mLights)
    (hlen : maxLightsInScene - 1 < collected.length) :
    getLightsInViewSpace .SingleUBO maxLightsInScene s isReflection mLights
      = truncateForUBO maxLightsInScene collected ∧
    (truncateForUBO maxLightsInScene collected).length = maxLightsInScene - 1 ∧
    (truncateForUBO maxLightsInScene collected).head? = collected.head? ∧
    ∃ dropped : List LightRec,
      ((truncateForUBO maxLightsInScene collected).tail ++ dropped).Perm collected.tail ∧
      ∀ x ∈ (truncateForUBO maxLightsInScene collected).tail, ∀ y ∈ dropped,
        ubRank x ≤ ubRank y := by
  refine ⟨by rw [hc]; rfl, ?_⟩
  clear hc
  match collected with
  | [] => simp at hlen
  | hd :: tl =>
    have htl : maxLightsInScene - 2 ≤ tl.length := by
      simp only [List.length_cons] at hlen
      omega
    have hunf : truncateForUBO maxLightsInScene (hd :: tl)
        = hd :: List.take (maxLightsInScene - 2) (List.insertionSort ubLe tl) := by
      unfold truncateForUBO
      rw [if_pos hlen]
    rw [hunf]
    haveI instTot : IsTotal LightRec ubLe := ⟨fun a b => le_total (ubRank a) (ubRank b)⟩
    haveI instTrans : IsTrans LightRec ubLe := ⟨fun a b c => le_trans⟩
    refine ⟨?_, rfl, ?_⟩
    · simp only [List.length_cons, List.length_take, List.length_insertionSort]
      omega
    · refine ⟨List.drop (maxLightsInScene - 2) (List.insertionSort ubLe tl), ?_, ?_⟩
      · show (List.take (maxLightsInScene - 2) (List.insertionSort ubLe tl)
            ++ List.drop (maxLightsInScene - 2) (List.insertionSort ubLe tl)).Perm tl
        rw [List.take_append_drop]
        exact List.perm_insertionSort ubLe tl
      · have hsorted : List.Pairwise ubLe (List.insertionSort ubLe tl) :=
          List.sorted_insertionSort ubLe tl
        rw [← List.take_append_drop (maxLightsInScene - 2) (List.insertionSort ubLe tl)]
          at hsorted
        exact (List.pairwise_append.mp hsorted).2.2

/-- A sample light used by concrete witnesses: identity, view distance,
view radius and cull verdict, with fixed colour and attenuation data. -/
def sampleLight (id : ℕ) (dist r : ℚ) (c : Bool) : LightRec :=
  ⟨id, dist, r, ⟨1, 1, 1, 1⟩, ⟨0, 0, 0, 0⟩, 1, 0, 0, r, ⟨0, 0, 0, 1⟩, c⟩

/-- Witness for C2: four collected lights against an in-scene capacity of
three (reflection camera, so the fade pass keeps all four). -/
theorem getLightsInViewSpace_capacity_witness :
    2 ≤ 3 ∧
    3 - 1 < (buildViewBounds ⟨1, 0, 0⟩ true
      [sampleLight 0 1 1 false, sampleLight 1 2 1 false,
       sampleLight 2 3 1 false, sampleLight 3 4 1 false]).length ∧
    (truncateForUBO 3 (buildViewBounds ⟨1, 0, 0⟩ true
      [sampleLight 0 1 1 false, sampleLight 1 2 1 false,
       sampleLight 2 3 1 false, sampleLight 3 4 1 false])).length = 3 - 1 := by
  refine ⟨by norm_num, by decide, ?_⟩
  exact (getLightsInViewSpace_capacity 3 (by norm_num) ⟨1, 0, 0⟩ true
    [sampleLight 0 1 1 false, sampleLight 1 2 1 false,
     sampleLight 2 3 1 false, sampleLight 3 4 1 false] _ rfl (by decide)).2.1

/-- Rank of the file-local `sortLights` comparator:
`center.length2() - radius2() * illuminationBias` with
`illuminationBias = 81`. -/
def sortLightsRank (l : LightRec) : ℚ := l.viewDist ^ 2 - l.viewRadius ^ 2 * 81

/-- Nonstrict companion of the strict `sortLights` comparator; sorting by
it refines `std::sort(..., sortLights)`. -/
def sortLightsLe (a b : LightRec) : Prop := sortLightsRank a ≤ sortLightsRank b

instance : DecidableRel sortLightsLe := fun a b => by
  unfold sortLightsLe
  infer_instance

/-- First reduction pass of `LightListCallback::pushLightState` on an
over-budget list: walk the copied list front to back and erase lights
whose doubled-radius view bound the camera culls
(`cullingSet.isCulled(bs)`, the precomputed `culled` flag), but only while
the list is over budget — the loop condition
`it != lightList.end() && lightList.size() > maxLights` stops the scan as
soon as the size reaches the budget.  `processed` holds the part of the
list already walked past. -/
def cullLoop (maxLights : ℕ) : List LightRec → List LightRec → List LightRec
  | processed, [] => processed
  | processed, x :: rest =>
    if maxLights < processed.length + (x :: rest).length then
      if x.culled then cullLoop maxLights processed rest
      else cullLoop maxLights (processed ++ [x]) rest
    else processed ++ x :: rest

/-- Budget reduction of `pushLightState`: the cheap cull rejection pass,
then — if the list is still over budget — `std::sort` by `sortLights` and
`pop_back` until the size equals the budget. -/
def reduceLightList (maxLights : ℕ) (lightList : List LightRec) : List LightRec :=
  let l1 := cullLoop maxLights [] lightList
  if maxLights < l1.length then List.take maxLights (List.insertionSort sortLightsLe l1)
  else l1

/-- The list for which `pushLightState` requests the state set: the
reduced copy when the intersected list exceeds the budget
(`getMaxLights() - getStartLight()`), the intersected list itself
otherwise. -/
def pushLightStateList (maxLights : ℕ) (mLightList : List LightRec) : List LightRec :=
  if maxLights < mLightList.length then reduceLightList maxLights mLightList
  else mLightList

/-- The cull pass never shrinks the list below the budget. -/
theorem cullLoop_length_ge (maxLights : ℕ) (processed rest : List LightRec)
    (h : maxLights ≤ processed.length + rest.length) :
    maxLights ≤ (cullLoop maxLights processed rest).length := by
  induction rest generalizing processed with
  | nil =>
    rw [cullLoop]
    simpa using h
  | cons x rest ih =>
    rw [cullLoop]
    by_cases hover : maxLights < processed.length + (x :: rest).length
    · rw [if_pos hover]
      by_cases hcul : x.culled
      · rw [if_pos hcul]
        refine ih processed ?_
        simp only [List.length_cons] at hover
        omega
      · rw [if_neg hcul]
        refine ih (processed ++ [x]) ?_
        simp only [List.length_append, List.length_cons, List.length_singleton] at h ⊢
        omega
    · rw [if_neg hover]
      simpa using h

/-- Every survivor of the cull pass comes from the walked or pending part. -/
theorem cullLoop_subset (maxLights : ℕ) (processed rest : List LightRec)
    (x : LightRec) (hx : x ∈ cullLoop maxLights processed rest) :
    x ∈ processed ++ rest := by
  induction rest generalizing processed with
  | nil =>
    rw [cullLoop] at hx
    simpa using hx
  | cons y rest ih =>
    rw [cullLoop] at hx
    by_cases hover : maxLights < processed.length + (y :: rest).length
    · rw [if_pos hover] at hx
      by_cases hcul : y.culled
      · rw [if_pos hcul] at hx
        have := ih processed hx
        simp only [List.mem_append, List.mem_cons] at this ⊢
        tauto
      · rw [if_neg hcul] at hx
        have := ih (processed ++ [y]) hx
        simp only [List.mem_append, List.mem_cons, List.mem_singleton] at this ⊢
        tauto
    · rw [if_neg hover] at hx
      exact hx

/-- The cull pass removes only culled lights: an unculled light of the
walked or pending part survives. -/
theorem cullLoop_keeps_unculled (maxLights : ℕ) (processed rest : List LightRec)
    (x : LightRec) (hx : x ∈ processed ++ rest) (hcull : x.culled = false) :
    x ∈ cullLoop maxLights processed rest := by
  induction rest generalizing processed with
  | nil =>
    rw [cullLoop]
    simpa using hx
  | cons y rest ih =>
    rw [cullLoop]
    by_cases hover : maxLights < processed.length + (y :: rest).length
    · rw [if_pos hover]
      by_cases hcul : y.culled
      · rw [if_pos hcul]
        refine ih processed ?_
        simp only [List.mem_append, List.mem_cons] at hx ⊢
        rcases hx with h | h | h
        · exact Or.inl h
        · subst h
          rw [hcull] at hcul
          cases hcul
        · exact Or.inr h
      · rw [if_neg hcul]
        refine ih (processed ++ [y]) ?_
        simp only [List.mem_append, List.mem_cons, List.mem_singleton] at hx ⊢
        tauto
    · rw [if_neg hover]
      exact hx

/-- C5 (amended): on an over-budget intersected list the callback removes,
scanning front to back, lights whose doubled-radius view-space bound is
culled by the view-frustum culling stack — but stops the scan as soon as
the size no longer exceeds the budget, so culled lights beyond that point
are retained; if the list is still over budget it sorts ascending by
(distance² − radius² × 81) and pops from the back until the size equals
the budget; the state set is requested for exactly that reduced list.
Formally: the requested list is the reduction; after reduction the length
equals the budget; only original lights survive; the first pass removes
only culled lights; and in the sorted-truncation case the retained lights
rank no higher than any dropped light. -/
theorem pushLightState_budget (maxLights : ℕ) (mLightList : List LightRec)
    (hover : maxLights < mLightList.length) :
    pushLightStateList maxLights mLightList = reduceLightList maxLights mLightList ∧
    (reduceLightList maxLights mLightList).length = maxLights ∧
    (∀ x ∈ reduceLightList maxLights mLightList, x ∈ mLightList) ∧
    (∀ x ∈ mLightList, x.culled = false → x ∈ cullLoop maxLights [] mLightList) ∧
    (maxLights < (cullLoop maxLights [] mLightList).length →
      ∃ dropped : List LightRec,
        (reduceLightList maxLights mLightList ++ dropped).Perm
          (cullLoop maxLights [] mLightList) ∧
        ∀ x ∈ reduceLightList maxLights mLightList, ∀ y ∈ dropped,
          sortLightsRank x ≤ sortLightsRank y) := by
  have hge : maxLights ≤ (cullLoop maxLights [] mLightList).length := by
    refine cullLoop_length_ge maxLights [] mLightList ?_
    simpa using le_of_lt hover
  have hred : reduceLightList maxLights mLightList
      = if maxLights < (cullLoop maxLights [] mLightList).length
        then List.take maxLights
          (List.insertionSort sortLightsLe (cullLoop maxLights [] mLightList))
        else cullLoop maxLights [] mLightList := rfl
  refine ⟨?_, ?_, ?_, ?_, ?_⟩
  · unfold pushLightStateList
    rw [if_pos hover]
  · rw [hred]
    by_cases hlt : maxLights < (cullLoop maxLights [] mLightList).length
    · rw [if_pos hlt]
      simp only [List.length_take, List.length_insertionSort]
      omega
    · rw [if_neg hlt]
      omega
  · intro x hx
    rw [hred] at hx
    by_cases hlt : maxLights < (cullLoop maxLights [] mLightList).length
    · rw [if_pos hlt] at hx
      have h1 : x ∈ List.insertionSort sortLightsLe (cullLoop maxLights [] mLightList) :=
        List.mem_of_mem_take hx
      have h2 : x ∈ cullLoop maxLights [] mLightList :=
        (List.perm_insertionSort sortLightsLe _).subset h1
      simpa using cullLoop_subset maxLights [] mLightList x h2
    · rw [if_neg hlt] at hx
      simpa using cullLoop_subset maxLights [] mLightList x hx
  · intro x hx hc
    exact cullLoop_keeps_unculled maxLights [] mLightList x (by simpa using hx) hc
  · intro hlt
    rw [hred, if_pos hlt]
    haveI instTot5 : IsTotal LightRec sortLightsLe :=
      ⟨fun a b => le_total (sortLightsRank a) (sortLightsRank b)⟩
    haveI instTrans5 : IsTrans LightRec sortLightsLe := ⟨fun a b c => le_trans⟩
    refine ⟨List.drop maxLights
      (List.insertionSort sortLightsLe (cullLoop maxLights [] mLightList)), ?_, ?_⟩
    · rw [List.take_append_drop]
      exact List.perm_insertionSort _ _
    · have hsorted : List.Pairwise sortLightsLe
          (List.insertionSort sortLightsLe (cullLoop maxLights [] mLightList)) :=
        List.sorted_insertionSort _ _
      rw [← List.take_append_drop maxLights
        (List.insertionSort sortLightsLe (cullLoop maxLights [] mLightList))] at hsorted
      exact (List.pairwise_append.mp hsorted).2.2

/-- Witness for C5 (amended): budget 2, three unculled lights. -/
theorem pushLightState_budget_witness :
    2 < ([sampleLight 0 1 1 false, sampleLight 1 2 1 false,
          sampleLight 2 3 1 false] : List LightRec).length ∧
    (reduceLightList 2 [sampleLight 0 1 1 false, sampleLight 1 2 1 false,
      sampleLight 2 3 1 false]).length = 2 :=
  ⟨by decide,
   (pushLightState_budget 2 [sampleLight 0 1 1 false, sampleLight 1 2 1 false,
      sampleLight 2 3 1 false] (by decide)).2.1⟩

/-- C5 counterexample: budget 2, list [culled, unculled, culled].  The
scan erases the first culled light, the size reaches the budget and the
loop stops, so the final requested list still contains the second culled
light — whereas removing every frustum-culled light first, as the claim
reads, would leave only the unculled light. -/
theorem pushLightState_early_stop_counterexample :
    pushLightStateList 2
      [sampleLight 0 10 1 true, sampleLight 1 20 1 false, sampleLight 2 30 1 true]
      = [sampleLight 1 20 1 false, sampleLight 2 30 1 true] ∧
    (sampleLight 2 30 1 true).culled = true ∧
    List.filter (fun l => !l.culled)
      [sampleLight 0 10 1 true, sampleLight 1 20 1 false, sampleLight 2 30 1 true]
      = [sampleLight 1 20 1 false] :=
  ⟨rfl, rfl, rfl⟩

/-- Frame parity (`frameNum % 2`), selecting a buffered generation. -/
def parity (frameNum : ℕ) : Bool := frameNum % 2 = 1

/-- Modelled from the spec: `Misc::hashCombine` (components/misc/hash.hpp,
not part of the excerpt) is the boost-style order-dependent 64-bit combine
`seed ^= hash(v) + 0x9e3779b9 + (seed << 6) + (seed >> 2)`, with the
identity `std::hash` on integers. -/
def hashCombine (seed v : ℕ) : ℕ :=
  (seed ^^^ ((v + 2654435769 + seed * 64 + seed / 4) % 18446744073709551616))
    % 18446744073709551616

/-- The cache key of `getLightListStateSet`: the combination of the light
identifiers in list order. -/
def hashLightList (ids : List ℕ) : ℕ := ids.foldl hashCombine 0

/-- One cached state set: the object identity (`token`) of the cached
`osg::StateSet`, the `PointLightCount` uniform it currently stores (kept
at 0 for the fixed-function tier, whose state sets carry no such
uniform), and — as a ghost field for specification purposes — the ordered
identifier list it was generated from. -/
structure StateSetEntry where
  token : ℕ
  pointLightCount : ℕ
  genIds : List ℕ
  deriving DecidableEq, Repr

/-- Association-list lookup, modelling `std::unordered_map::find`. -/
def alookup {α : Type} (h : ℕ) : List (ℕ × α) → Option α
  | [] => none
  | p :: ps => if p.1 = h then some p.2 else alookup h ps

/-- In-place mutation of the found map value (`found->second`): the key
and the object slot stay, the value changes. -/
def areplace {α : Type} (h : ℕ) (v : α) (l : List (ℕ × α)) : List (ℕ × α) :=
  l.map (fun p => if p.1 = h then (h, v) else p)

/-- Mutable state of `SceneUtil::LightManager` relevant to the per-frame
caches: the light cap, the active tier, the collected per-frame light
list, the per-camera view-space bound cache (keyed by a camera identity),
and the two generations (indexed by frame parity) of the light index map,
the state-set cache and the GPU buffer, plus a counter producing fresh
state-set object identities. -/
structure ManagerState where
  mMaxLights : ℕ
  mLightingMethod : LightingMethod
  mLights : List LightRec
  mLightsInViewSpace : List (ℕ × List LightRec)
  mLightIndexMap : Bool → List (ℕ × ℕ)
  mStateSetCache : Bool → List (ℕ × StateSetEntry)
  mLightBuffers : Bool → LightBuffer
  nextToken : ℕ

/-- Manager state right after construction and tier selection: empty
caches, buffers sized `getMaxLightsInScene()`. -/
def ManagerState.mkInitial (maxLights : ℕ) (method : LightingMethod) : ManagerState :=
  ⟨maxLights, method, [], [], fun _ => [], fun _ => [],
   fun _ => LightBuffer.init getMaxLightsInScene, 0⟩

/-- `LightManager::update(frameNum)`: clear this frame parity's light
index map, the collected light list and the per-camera view-space bound
cache; clear a state-set cache generation wholesale when it has grown
past 5000 entries, and leave it untouched otherwise. -/
def ManagerState.update (st : ManagerState) (frameNum : ℕ) : ManagerState :=
  { st with
    mLightIndexMap := fun b => if b = parity frameNum then [] else st.mLightIndexMap b
    mLights := []
    mLightsInViewSpace := []
    mStateSetCache := fun b =>
      if 5000 < (st.mStateSetCache b).length then [] else st.mStateSetCache b }

/-- `LightManager::updateGPUPointLight(index, lightSource, frameNum, viewMatrix)`:
pack the light's data into the buffer at `index`; the position is the
light's position taken to view space (held resolved in `viewPos`). -/
def updateGPUPointLight (buf : LightBuffer) (index : ℕ) (l : LightRec) : LightBuffer :=
  (((buf.setDiffuse index l.diffuse).setAmbient index l.ambient).setAttenuationRadius index
      ⟨l.attenC, l.attenL, l.attenQ, l.radius⟩).setPosition index l.viewPos

/-- The `SingleUBO` side effect of the identifier loop of
`getLightListStateSet`: a light not yet in this frame's index map is
assigned the next free slot (`map.size() + 1`, slot 0 being the sun) and
its packed data is written into the active generation's buffer. -/
def assignUBOIndices (st : ManagerState) (lightList : List LightRec) (frameNum : ℕ) :
    ManagerState :=
  lightList.foldl
    (fun s l =>
      if (alookup l.mId (s.mLightIndexMap (parity frameNum))).isSome then s
      else
        { s with
          mLightIndexMap := fun b =>
            if b = parity frameNum
            then (l.mId, (s.mLightIndexMap (parity frameNum)).length + 1)
              :: s.mLightIndexMap b
            else s.mLightIndexMap b
          mLightBuffers := fun b =>
            if b = parity frameNum
            then updateGPUPointLight (s.mLightBuffers b)
              ((s.mLightIndexMap (parity frameNum)).length + 1) l
            else s.mLightBuffers b })
    st

/-- The `PointLightCount` uniform stored by the tier's
`StateSetGenerator::generate`: `lightList.size()` for the shared-buffer
tier, `lightList.size() + 1` for the per-object-uniform tier, and 0 as a
placeholder for fixed function, whose state sets carry no such uniform. -/
def generateCount (method : LightingMethod) (n : ℕ) : ℕ :=
  match method with
  | .SingleUBO => n
  | .PerObjectUniform => n + 1
  | .FFP => 0

/-- `StateSetGeneratorSingleUBO::update` on a cache hit: read the stored
`PointLightCount`, clamp it to the current max-lights cap (`oldCount`),
then for each `i < oldCount` look `lightList[i]`'s identifier up in this
frame's index map, keeping the found ones; the kept count is written
back.  The C++ loop indexes `lightList[i]` without a bounds check, so the
second component reports whether every access was in bounds. -/
def ssgUpdateSingleUBO (maxLights : ℕ) (indexMap : List (ℕ × ℕ))
    (oldStored : ℕ) (ids : List ℕ) : ℕ × Bool :=
  let oldCount := min maxLights oldStored
  (((ids.take oldCount).filter (fun id => (alookup id indexMap).isSome)).length,
   decide (oldCount ≤ ids.length))

/-- `LightManager::getLightListStateSet`: hash the ordered identifiers; in
the shared-buffer tier assign buffer slots to lights unseen this frame;
return the cached state set for the key after running the tier's update
hook, or generate, cache and return a fresh one.  The result is the
returned state set's object identity, the successor state, and whether
every list access of the update hook was in bounds (`true` when no
rebinding hook ran). -/
def ManagerState.getLightListStateSet (st : ManagerState) (lightList : List LightRec)
    (frameNum : ℕ) : ℕ × ManagerState × Bool :=
  let h := hashLightList (lightList.map LightRec.mId)
  let st1 := if st.mLightingMethod = .SingleUBO
    then assignUBOIndices st lightList frameNum else st
  match alookup h (st1.mStateSetCache (parity frameNum)) with
  | some e =>
    match st1.mLightingMethod with
    | .SingleUBO =>
      let r := ssgUpdateSingleUBO st1.mMaxLights (st1.mLightIndexMap (parity frameNum))
        e.pointLightCount (lightList.map LightRec.mId)
      (e.token,
       { st1 with
         mStateSetCache := fun b =>
           if b = parity frameNum
           then areplace h { e with pointLightCount := r.1 } (st1.mStateSetCache b)
           else st1.mStateSetCache b },
       r.2)
    | _ => (e.token, st1, true)
  | none =>
    (st1.nextToken,
     { st1 with
       mStateSetCache := fun b =>
         if b = parity frameNum
         then (h, ⟨st1.nextToken, generateCount st1.mLightingMethod lightList.length,
                lightList.map LightRec.mId⟩) :: st1.mStateSetCache b
         else st1.mStateSetCache b
       nextToken := st1.nextToken + 1 },
     true)

/-- `LightManager::updateMaxLights` (non-FFP): clamp the configured cap to
the engine bounds (the bounds live in the header, outside the excerpt, so
they are parameters here) and clear both state-set cache generations.
Both source branches end by clearing both generations, so their per-entry
count/array rewrites act on entries that are then discarded. -/
def ManagerState.updateMaxLights (st : ManagerState)
    (lowerLimit upperLimit rawSetting : ℕ) : ManagerState :=
  if st.mLightingMethod = .FFP then st
  else
    { st with
      mMaxLights := min upperLimit (max lowerLimit rawSetting)
      mStateSetCache := fun _ => [] }

/-- States reachable through the cache-touching manager operations. -/
inductive ManagerState.Reachable : ManagerState → Prop
  | init (maxLights : ℕ) (method : LightingMethod) :
      ManagerState.Reachable (ManagerState.mkInitial maxLights method)
  | frameReset (st : ManagerState) (frameNum : ℕ) :
      ManagerState.Reachable st → ManagerState.Reachable (st.update frameNum)
  | stateSetCall (st : ManagerState) (lightList : List LightRec) (frameNum : ℕ) :
      ManagerState.Reachable st →
      ManagerState.Reachable (st.getLightListStateSet lightList frameNum).2.1
  | maxLightsChange (st : ManagerState) (lowerLimit upperLimit rawSetting : ℕ) :
      ManagerState.Reachable st →
      ManagerState.Reachable (st.updateMaxLights lowerLimit upperLimit rawSetting)

/-- Cache invariant: every cached entry is keyed by the hash of its
generating identifier list, and in the shared-buffer tier its stored
`PointLightCount` never exceeds that list's length. -/
def ManagerState.CacheInv (st : ManagerState) : Prop :=
  ∀ b : Bool, ∀ p ∈ st.mStateSetCache b,
    p.1 = hashLightList p.2.genIds ∧
    (st.mLightingMethod = .SingleUBO → p.2.pointLightCount ≤ p.2.genIds.length)

/-- One step of the slot-assignment fold touches only the index map and
the GPU buffers. -/
theorem assignUBOIndices_preserves (st : ManagerState) (lightList : List LightRec)
    (frameNum : ℕ) :
    (assignUBOIndices st lightList frameNum).mStateSetCache = st.mStateSetCache ∧
    (assignUBOIndices st lightList frameNum).mLightingMethod = st.mLightingMethod ∧
    (assignUBOIndices st lightList frameNum).mMaxLights = st.mMaxLights ∧
    (assignUBOIndices st lightList frameNum).nextToken = st.nextToken := by
  induction lightList generalizing st with
  | nil => exact ⟨rfl, rfl, rfl, rfl⟩
  | cons x xs ih =>
    have hstep : assignUBOIndices st (x :: xs) frameNum
        = assignUBOIndices
            (if (alookup x.mId (st.mLightIndexMap (parity frameNum))).isSome then st
             else
              { st with
                mLightIndexMap := fun b =>
                  if b = parity frameNum
                  then (x.mId, (st.mLightIndexMap (parity frameNum)).length + 1)
                    :: st.mLightIndexMap b
                  else st.mLightIndexMap b
                mLightBuffers := fun b =>
                  if b = parity frameNum
                  then updateGPUPointLight (st.mLightBuffers b)
                    ((st.mLightIndexMap (parity frameNum)).length + 1) x
                  else st.mLightBuffers b }) xs frameNum := rfl
    rw [hstep]
    by_cases hx : (alookup x.mId (st.mLightIndexMap (parity frameNum))).isSome
    · rw [if_pos hx]
      exact ih st
    · rw [if_neg hx]
      exact ih _

/-- A successful association lookup finds a member pair. -/
theorem alookup_mem {α : Type} (h : ℕ) (l : List (ℕ × α)) (v : α)
    (hl : alookup h l = some v) : (h, v) ∈ l := by
  induction l with
  | nil => cases hl
  | cons p ps ih =>
    obtain ⟨a, c⟩ := p
    rw [alookup] at hl
    by_cases hp : a = h
    · rw [if_pos hp] at hl
      injection hl with hv
      subst hp
      subst hv
      exact List.mem_cons_self _ _
    · rw [if_neg hp] at hl
      exact List.mem_cons_of_mem _ (ih hl)

/-- Looking the key up after an in-place replacement finds the new value,
provided the key was present. -/
theorem alookup_areplace_self {α : Type} (h : ℕ) (l : List (ℕ × α)) (v e : α)
    (hl : alookup h l = some e) : alookup h (areplace h v l) = some v := by
  induction l with
  | nil => cases hl
  | cons p ps ih =>
    rw [alookup] at hl
    show alookup h (List.map _ (p :: ps)) = some v
    rw [List.map_cons]
    by_cases hp : p.1 = h
    · rw [if_pos hp]
      rw [alookup, if_pos rfl]
    · rw [if_neg hp] at hl ⊢
      rw [alookup, if_neg hp]
      exact ih hl

/-- Every pair of a replaced map is the replacement or an original pair. -/
theorem mem_areplace {α : Type} (h : ℕ) (v : α) (l : List (ℕ × α)) (q : ℕ × α)
    (hq : q ∈ areplace h v l) : q = (h, v) ∨ q ∈ l := by
  unfold areplace at hq
  obtain ⟨p, hp, hpq⟩ := List.mem_map.mp hq
  by_cases hph : p.1 = h
  · rw [if_pos hph] at hpq
    exact Or.inl hpq.symm
  · rw [if_neg hph] at hpq
    exact Or.inr (hpq ▸ hp)

/-- Lookup at the head key. -/
theorem alookup_cons_self {α : Type} (h : ℕ) (v : α) (l : List (ℕ × α)) :
    alookup h ((h, v) :: l) = some v := by
  rw [alookup, if_pos rfl]

/-- The state set returned by `getLightListStateSet` is determined by the
cache lookup alone: the cached object's identity on a hit, a fresh
identity on a miss.  The slot-assignment side effect never touches the
cache, so the lookup can be read off the pre-call state. -/
theorem getLightListStateSet_token (st : ManagerState) (l : List LightRec) (f : ℕ) :
    (st.getLightListStateSet l f).1
      = (match alookup (hashLightList (l.map LightRec.mId))
            (st.mStateSetCache (parity f)) with
         | some e => e.token
         | none => st.nextToken) := by
  have hpres := assignUBOIndices_preserves st l f
  simp only [ManagerState.getLightListStateSet]
  by_cases hm : st.mLightingMethod = .SingleUBO
  · rw [if_pos hm, hpres.1]
    cases hlook : alookup (hashLightList (l.map LightRec.mId))
        (st.mStateSetCache (parity f)) with
    | none => exact hpres.2.2.2
    | some e =>
      rw [hpres.2.1, hm]
  · rw [if_neg hm]
    cases hlook : alookup (hashLightList (l.map LightRec.mId))
        (st.mStateSetCache (parity f)) with
    | none => rfl
    | some e =>
      cases hmeth : st.mLightingMethod with
      | FFP => rfl
      | PerObjectUniform => rfl
      | SingleUBO => exact absurd hmeth hm

/-- After a `getLightListStateSet` call, looking the same key up in the
called parity's cache finds an entry whose object identity is exactly the
returned one: a hit leaves the cached object in place (the update hook
only rewrites its uniforms), a miss inserts the fresh object. -/
theorem getLightListStateSet_post (st : ManagerState) (l : List LightRec) (f : ℕ) :
    Option.map StateSetEntry.token
      (alookup (hashLightList (l.map LightRec.mId))
        ((st.getLightListStateSet l f).2.1.mStateSetCache (parity f)))
      = some (st.getLightListStateSet l f).1 := by
  have hpres := assignUBOIndices_preserves st l f
  simp only [ManagerState.getLightListStateSet]
  by_cases hm : st.mLightingMethod = .SingleUBO
  · rw [if_pos hm, hpres.1]
    cases hlook : alookup (hashLightList (l.map LightRec.mId))
        (st.mStateSetCache (parity f)) with
    | none =>
      dsimp only
      rw [if_pos rfl, alookup_cons_self]
      rfl
    | some e =>
      rw [hpres.2.1, hm]
      dsimp only
      rw [if_pos rfl]
      rw [alookup_areplace_self _ _ _ e hlook]
      rfl
  · rw [if_neg hm]
    cases hlook : alookup (hashLightList (l.map LightRec.mId))
        (st.mStateSetCache (parity f)) with
    | none =>
      dsimp only
      rw [if_pos rfl, alookup_cons_self]
      rfl
    | some e =>
      cases hmeth : st.mLightingMethod with
      | FFP =>
        dsimp only
        rw [hlook]
        rfl
      | PerObjectUniform =>
        dsimp only
        rw [hlook]
        rfl
      | SingleUBO => exact absurd hmeth hm

/-- C6: two `getLightListStateSet` calls whose ordered identifier
sequences are equal and whose frame numbers share a parity (with no
intervening clear) return the identical state-set object, because the
cache key is the order-dependent hash combining the identifiers in list
order; and the key does distinguish orderings — the two orderings of the
identifier set {1, 2} hash differently, so they may occupy distinct cache
entries. -/
theorem getLightListStateSet_cache_identity :
    (∀ (st : ManagerState) (l1 l2 : List LightRec) (f1 f2 : ℕ),
      f1 % 2 = f2 % 2 →
      l1.map LightRec.mId = l2.map LightRec.mId →
      ((st.getLightListStateSet l1 f1).2.1.getLightListStateSet l2 f2).1
        = (st.getLightListStateSet l1 f1).1) ∧
    hashLightList [1, 2] ≠ hashLightList [2, 1] := by
  constructor
  · intro st l1 l2 f1 f2 hpar hids
    have hp : parity f1 = parity f2 := by
      unfold parity
      rw [hpar]
    have hpost := getLightListStateSet_post st l1 f1
    rw [getLightListStateSet_token ((st.getLightListStateSet l1 f1).2.1) l2 f2]
    rw [← hids, ← hp]
    cases hlook2 : alookup (hashLightList (l1.map LightRec.mId))
        ((st.getLightListStateSet l1 f1).2.1.mStateSetCache (parity f1)) with
    | none =>
      rw [hlook2] at hpost
      cases hpost
    | some e2 =>
      rw [hlook2] at hpost
      exact Option.some.inj hpost
  · decide

/-- Witness for C6: the same singleton light list on frames 0 and 2. -/
theorem getLightListStateSet_cache_identity_witness :
    (((ManagerState.mkInitial 8 .PerObjectUniform).getLightListStateSet
        [sampleLight 0 1 1 false] 0).2.1.getLightListStateSet
        [sampleLight 0 1 1 false] 2).1
      = ((ManagerState.mkInitial 8 .PerObjectUniform).getLightListStateSet
        [sampleLight 0 1 1 false] 0).1 :=
  getLightListStateSet_cache_identity.1
    (ManagerState.mkInitial 8 .PerObjectUniform)
    [sampleLight 0 1 1 false] [sampleLight 0 1 1 false] 0 2 rfl rfl

/-- C7: after `update(frameNum)` the light index map of that frame's
parity is empty, the collected light list is empty, the per-camera
view-space bound cache is empty for all cameras, and each state-set cache
generation is cleared entirely when its size exceeded 5000 entries and is
left unchanged otherwise (no individual eviction). -/
theorem update_frame_reset (st : ManagerState) (frameNum : ℕ) :
    (st.update frameNum).mLightIndexMap (parity frameNum) = [] ∧
    (st.update frameNum).mLights = [] ∧
    (st.update frameNum).mLightsInViewSpace = [] ∧
    ∀ b : Bool, (st.update frameNum).mStateSetCache b
      = if 5000 < (st.mStateSetCache b).length then [] else st.mStateSetCache b := by
  refine ⟨?_, rfl, rfl, fun b => rfl⟩
  show (if parity frameNum = parity frameNum then ([] : List (ℕ × ℕ)) else _) = []
  rw [if_pos rfl]

/-- The rebinding hook never writes a count above the clamped old one. -/
theorem ssgUpdateSingleUBO_le (maxLights : ℕ) (m : List (ℕ × ℕ)) (oldStored : ℕ)
    (ids : List ℕ) :
    (ssgUpdateSingleUBO maxLights m oldStored ids).1 ≤ min maxLights oldStored := by
  unfold ssgUpdateSingleUBO
  dsimp only
  exact le_trans (List.length_filter_le _ _) (List.length_take_le _ _)

/-- The cache invariant holds at construction. -/
theorem cacheInv_mkInitial (maxLights : ℕ) (method : LightingMethod) :
    (ManagerState.mkInitial maxLights method).CacheInv := by
  intro b p hp
  cases hp

/-- The frame reset only ever empties cache generations. -/
theorem cacheInv_update (st : ManagerState) (frameNum : ℕ) (hinv : st.CacheInv) :
    (st.update frameNum).CacheInv := by
  intro b p hp
  have hp2 : p ∈ st.mStateSetCache b := by
    have he : (st.update frameNum).mStateSetCache b
        = if 5000 < (st.mStateSetCache b).length then [] else st.mStateSetCache b := rfl
    rw [he] at hp
    by_cases hb : 5000 < (st.mStateSetCache b).length
    · rw [if_pos hb] at hp
      cases hp
    · rwa [if_neg hb] at hp
  exact ⟨(hinv b p hp2).1, fun hm => (hinv b p hp2).2 hm⟩

/-- `updateMaxLights` either leaves the state alone or clears the caches. -/
theorem cacheInv_updateMax (st : ManagerState) (lo hi raw : ℕ) (hinv : st.CacheInv) :
    (st.updateMaxLights lo hi raw).CacheInv := by
  by_cases hffp : st.mLightingMethod = .FFP
  · have hst : st.updateMaxLights lo hi raw = st := by
      unfold ManagerState.updateMaxLights
      rw [if_pos hffp]
    rw [hst]
    exact hinv
  · have hst : st.updateMaxLights lo hi raw
        = { st with mMaxLights := min hi (max lo raw), mStateSetCache := fun _ => [] } := by
      unfold ManagerState.updateMaxLights
      rw [if_neg hffp]
    rw [hst]
    intro b p hp
    cases hp

/-- `getLightListStateSet` preserves the cache invariant: a miss inserts
an entry whose count is the generating list's length (shared-buffer tier),
a hit only lowers the stored count. -/
theorem cacheInv_getStateSet (st : ManagerState) (l : List LightRec) (f : ℕ)
    (hinv : st.CacheInv) : (st.getLightListStateSet l f).2.1.CacheInv := by
  have hpres := assignUBOIndices_preserves st l f
  simp only [ManagerState.getLightListStateSet]
  by_cases hm : st.mLightingMethod = .SingleUBO
  · rw [if_pos hm, hpres.1]
    cases hlook : alookup (hashLightList (l.map LightRec.mId))
        (st.mStateSetCache (parity f)) with
    | none =>
      dsimp only
      intro b p hp
      dsimp only at hp
      by_cases hb : b = parity f
      · rw [if_pos hb] at hp
        rcases List.mem_cons.mp hp with hph | hpt
        · subst hph
          refine ⟨rfl, fun _ => ?_⟩
          show generateCount (assignUBOIndices st l f).mLightingMethod l.length
            ≤ (l.map LightRec.mId).length
          rw [hpres.2.1, hm, List.length_map]
          exact le_refl _
        · exact ⟨(hinv b p hpt).1, fun _ => (hinv b p hpt).2 hm⟩
      · rw [if_neg hb] at hp
        exact ⟨(hinv b p hp).1, fun _ => (hinv b p hp).2 hm⟩
    | some e =>
      rw [hpres.2.1, hm]
      dsimp only
      intro b p hp
      dsimp only at hp
      have hmem := alookup_mem _ _ _ hlook
      have he := hinv (parity f) _ hmem
      by_cases hb : b = parity f
      · rw [if_pos hb] at hp
        rcases mem_areplace _ _ _ _ hp with hph | hpt
        · subst hph
          refine ⟨he.1, fun _ => ?_⟩
          show (ssgUpdateSingleUBO (assignUBOIndices st l f).mMaxLights
              ((assignUBOIndices st l f).mLightIndexMap (parity f))
              e.pointLightCount (l.map LightRec.mId)).1 ≤ e.genIds.length
          exact le_trans (ssgUpdateSingleUBO_le _ _ _ _)
            (le_trans (min_le_right _ _) (he.2 hm))
        · exact ⟨(hinv b p hpt).1, fun _ => (hinv b p hpt).2 hm⟩
      · rw [if_neg hb] at hp
        exact ⟨(hinv b p hp).1, fun _ => (hinv b p hp).2 hm⟩
  · rw [if_neg hm]
    cases hlook : alookup (hashLightList (l.map LightRec.mId))
        (st.mStateSetCache (parity f)) with
    | none =>
      dsimp only
      intro b p hp
      dsimp only at hp
      by_cases hb : b = parity f
      · rw [if_pos hb] at hp
        rcases List.mem_cons.mp hp with hph | hpt
        · subst hph
          exact ⟨rfl, fun hx => absurd hx hm⟩
        · exact ⟨(hinv b p hpt).1, fun hx => (hinv b p hpt).2 hx⟩
      · rw [if_neg hb] at hp
        exact ⟨(hinv b p hp).1, fun hx => (hinv b p hp).2 hx⟩
    | some e =>
      cases hmeth : st.mLightingMethod with
      | FFP =>
        dsimp only
        intro b p hp
        exact ⟨(hinv b p hp).1, fun hx => (hinv b p hp).2 hx⟩
      | PerObjectUniform =>
        dsimp only
        intro b p hp
        exact ⟨(hinv b p hp).1, fun hx => (hinv b p hp).2 hx⟩
      | SingleUBO => exact absurd hmeth hm

/-- Every reachable manager state satisfies the cache invariant. -/
theorem reachable_cacheInv (st : ManagerState) (h : st.Reachable) : st.CacheInv := by
  induction h with
  | init m meth => exact cacheInv_mkInitial m meth
  | frameReset st f hr ih => exact cacheInv_update st f ih
  | stateSetCall st l f hr ih => exact cacheInv_getStateSet st l f ih
  | maxLightsChange st lo hi raw hr ih => exact cacheInv_updateMax st lo hi raw ih

/-- C9: in the shared-uniform-buffer tier, on every cache-hit call of
`getLightListStateSet` from a reachable state, the generator's update
hook stays within the bounds of the supplied light list: the stored
`PointLightCount` of the cached state set, clamped to the current
max-lights cap, never exceeds the length of the light list passed to the
hit call, assuming distinct ordered identifier sequences hash to distinct
cache keys (phrased as collision-freedom over the entries actually in the
cache); consequently the hook's per-index accesses are all in bounds. -/
theorem singleUBO_hook_in_bounds (st : ManagerState) (hreach : st.Reachable)
    (hmethod : st.mLightingMethod = .SingleUBO)
    (lightList : List LightRec) (frameNum : ℕ) (e : StateSetEntry)
    (hhit : alookup (hashLightList (lightList.map LightRec.mId))
      (st.mStateSetCache (parity frameNum)) = some e)
    (hnocoll : ∀ b : Bool, ∀ p ∈ st.mStateSetCache b,
      hashLightList p.2.genIds = hashLightList (lightList.map LightRec.mId) →
      p.2.genIds = lightList.map LightRec.mId) :
    min st.mMaxLights e.pointLightCount ≤ lightList.length ∧
    (st.getLightListStateSet lightList frameNum).2.2 = true := by
  have hinv := reachable_cacheInv st hreach
  have hmem := alookup_mem _ _ _ hhit
  have h1 := hinv (parity frameNum) _ hmem
  have hgen : e.genIds = lightList.map LightRec.mId :=
    hnocoll (parity frameNum) _ hmem h1.1.symm
  have hlen : e.pointLightCount ≤ lightList.length := by
    have h2 := h1.2 hmethod
    rwa [hgen, List.length_map] at h2
  have hb1 : min st.mMaxLights e.pointLightCount ≤ lightList.length :=
    le_trans (min_le_right _ _) hlen
  refine ⟨hb1, ?_⟩
  have hpres := assignUBOIndices_preserves st lightList frameNum
  simp only [ManagerState.getLightListStateSet]
  rw [if_pos hmethod, hpres.1, hhit, hpres.2.1, hmethod]
  dsimp only
  unfold ssgUpdateSingleUBO
  dsimp only
  rw [hpres.2.2.1]
  have hfin : min st.mMaxLights e.pointLightCount
      ≤ (lightList.map LightRec.mId).length := by
    rwa [List.length_map]
  exact decide_eq_true hfin

/-- Witness for C9: one call from the fresh shared-buffer state caches the
singleton list of identifier 5; a hit on that entry is in bounds. -/
theorem singleUBO_hook_in_bounds_witness :
    min ((ManagerState.mkInitial 8 .SingleUBO).getLightListStateSet
        [sampleLight 5 1 1 false] 0).2.1.mMaxLights
      (1 : ℕ) ≤ ([sampleLight 5 1 1 false] : List LightRec).length :=
  (singleUBO_hook_in_bounds
    ((ManagerState.mkInitial 8 .SingleUBO).getLightListStateSet
      [sampleLight 5 1 1 false] 0).2.1
    (ManagerState.Reachable.stateSetCall (ManagerState.mkInitial 8 .SingleUBO)
      [sampleLight 5 1 1 false] 0
      (ManagerState.Reachable.init 8 .SingleUBO))
    rfl [sampleLight 5 1 1 false] 0 ⟨0, 1, [5]⟩ (by decide) (by decide)).1
